import Mathlib

/-!
Shallow embedding of the GFlow particle-simulation core (repository
Yikuan-Yan/GFlow), covering the particle store (SimData), the velocity-Verlet
integrator, the adaptive time-step controller, the domain rebuild decision and
the boundary handling of the engine.  Real-valued quantities are embedded as
rationals; where the C++ computes a square root, the embedding takes the
root as an explicit argument or carries magnitudes instead of squares.
-/

namespace GFlowSim

/-- List helper: value of a set at the written index (in range). -/
theorem getD_set_self {α : Type} (l : List α) (i : ℕ) (a d : α) (h : i < l.length) :
    (l.set i a).getD i d = a := by
  induction l generalizing i with
  | nil => simp at h
  | cons b t ih =>
    cases i with
    | zero => simp [List.set, List.getD]
    | succ j =>
      simp only [List.set, List.getD, List.length_cons] at *
      exact ih j (by omega)

/-- List helper: value of a set at a different index. -/
theorem getD_set_ne {α : Type} (l : List α) (i j : ℕ) (a d : α) (h : i ≠ j) :
    (l.set i a).getD j d = l.getD j d := by
  induction l generalizing i j with
  | nil => simp [List.set]
  | cons b t ih =>
    cases i with
    | zero =>
      cases j with
      | zero => exact absurd rfl h
      | succ k => simp [List.set, List.getD]
    | succ i2 =>
      cases j with
      | zero => simp [List.set, List.getD]
      | succ k => simpa [List.set, List.getD] using ih i2 k (by omega)

/-- List helper: setting an out-of-range index leaves the list unchanged. -/
theorem set_oob {α : Type} (l : List α) (i : ℕ) (a : α) (h : l.length ≤ i) :
    l.set i a = l := by
  induction l generalizing i with
  | nil => simp
  | cons b t ih =>
    cases i with
    | zero => simp at h
    | succ j =>
      simp only [List.length_cons] at h
      simp [List.set, ih j (by omega)]

/-- Particle data container of GFlowSim/src/base/simdata.cpp.  The three
vector fields vdata[0], vdata[1], vdata[2] are the accessors X, V, F; the
scalar fields sdata[0], sdata[1] are Sg, Im; the integer fields idata[0],
idata[1] are Type (here typ, Type is reserved in Lean) and Id (here gid).
The capacity counter and the reallocation it drives are memory management
with no observable effect on field contents and are not carried. -/
structure SimData where
  x : List (List ℚ)
  v : List (List ℚ)
  f : List (List ℚ)
  sg : List ℚ
  im : List ℚ
  typ : List ℤ
  gid : List ℤ
  numberP : ℕ
  sizeP : ℕ
  next_global_id : ℤ
  id_map : List (ℤ × ℕ)
  remove_list : List ℕ
  needs_remake : Bool
  deriving DecidableEq

namespace SimData

/-- Empty store: all arrays empty, counters zero (state after reserve/construction). -/
def empty : SimData := ⟨[], [], [], [], [], [], [], 0, 0, 0, [], [], false⟩

/-- Erase a key from the id map (std::unordered_map::erase). -/
def eraseKey (k : ℤ) (m : List (ℤ × ℕ)) : List (ℤ × ℕ) :=
  m.filter (fun p => p.1 != k)

/-- Look up a key in the id map (std::unordered_map::find). -/
def lookupKey (k : ℤ) (m : List (ℤ × ℕ)) : Option ℕ :=
  (m.find? (fun p => p.1 == k)).map Prod.snd

/-- Overwrite the value stored at a key that is present (it->second = dst). -/
def setKey (k : ℤ) (val : ℕ) (m : List (ℤ × ℕ)) : List (ℤ × ℕ) :=
  m.map (fun p => if p.1 == k then (p.1, val) else p)

/-- Ordered insertion, modelling std::set<int>::insert (ascending iteration). -/
def insertSorted (i : ℕ) : List ℕ → List ℕ
  | [] => [i]
  | a :: t => if i < a then i :: a :: t else if i = a then a :: t else a :: insertSorted i t

/-- Embeds SimData::addParticle(x, v, sg, im, type) (simdata.cpp 86-98): writes
the given data at index sizeP (the end of each array), assigns the next global
id, increments numberP and sizeP.  No entry is added to id_map, exactly as in
the source. -/
def addParticle (dim : ℕ) (xin vin : List ℚ) (sgin imin : ℚ) (t : ℤ) (s : SimData) : SimData :=
  { s with
    x := s.x ++ [xin]
    v := s.v ++ [vin]
    f := s.f ++ [List.replicate dim 0]
    sg := s.sg ++ [sgin]
    im := s.im ++ [imin]
    typ := s.typ ++ [t]
    gid := s.gid ++ [s.next_global_id]
    next_global_id := s.next_global_id + 1
    numberP := s.numberP + 1
    sizeP := s.sizeP + 1 }

/-- Embeds SimData::markForRemoval (simdata.cpp 100-109): early return when
Type(id) is already negative; otherwise insert into remove_list, tombstone the
type, erase the global id from the map, set Id to -1 and zero V and F. -/
def markForRemoval (dim : ℕ) (idx : ℕ) (s : SimData) : SimData :=
  if s.typ.getD idx 0 < 0 then s
  else
    { s with
      remove_list := insertSorted idx s.remove_list
      typ := s.typ.set idx (-1)
      id_map := eraseKey (s.gid.getD idx (-1)) s.id_map
      gid := s.gid.set idx (-1)
      v := s.v.set idx (List.replicate dim 0)
      f := s.f.set idx (List.replicate dim 0) }

/-- Embeds SimData::move_particle(src, dst) (simdata.cpp 321-346): if dst holds
a valid particle, decrement numberP and drop its id from the map; copy every
field from src to dst; remap the moved global id, or throw (modelled as
Except.error false, from the source's throw false) when it is absent. -/
def move_particle (src dst : ℕ) (s : SimData) : Except Bool SimData :=
  let gs := s.gid.getD src (-1)
  let gd := s.gid.getD dst (-1)
  let s1 := if (-1 : ℤ) < s.typ.getD dst 0 then
      { s with numberP := s.numberP - 1, id_map := eraseKey gd s.id_map }
    else s
  let s2 := { s1 with
    x := s1.x.set dst (s1.x.getD src [])
    v := s1.v.set dst (s1.v.getD src [])
    f := s1.f.set dst (s1.f.getD src [])
    sg := s1.sg.set dst (s1.sg.getD src 0)
    im := s1.im.set dst (s1.im.getD src 0)
    typ := s1.typ.set dst (s1.typ.getD src 0)
    gid := s1.gid.set dst (s1.gid.getD src (-1)) }
  match lookupKey gs s2.id_map with
  | some _ => Except.ok { s2 with id_map := setKey gs dst s2.id_map, needs_remake := true }
  | none => Except.error false

/-- Inner while loop of SimData::doParticleRemoval (simdata.cpp 131): decrement
count_back while it is in the remove list and above the current hole. -/
def skipBack (all : List ℕ) (idx : ℕ) : ℕ → ℕ
  | 0 => 0
  | c + 1 => if c + 1 ∈ all ∧ idx < c + 1 then skipBack all idx c else c + 1

/-- Hole-filling loop of SimData::doParticleRemoval (simdata.cpp 122-137):
for each hole (ascending), decrement count_back past marked slots, then move
the tail particle into the hole, or break when the tail meets the hole.
Returns the final store and the removed counter. -/
def fillHoles (all : List ℕ) : List ℕ → ℕ → ℕ → SimData → Except Bool (SimData × ℕ)
  | [], _, removed, s => Except.ok (s, removed)
  | idx :: rest, count_back, removed, s =>
    let cb := skipBack all idx (count_back - 1)
    if idx < cb then
      match move_particle cb idx s with
      | Except.error e => Except.error e
      | Except.ok s1 => fillHoles all rest cb (removed + 1) s1
    else Except.ok (s, removed + 1)

/-- Embeds SimData::doParticleRemoval (simdata.cpp 111-145): early return when
nothing is pending; count entries whose type is not already -1 into
need_removal while tombstoning them; fill holes from the tail; subtract
need_removal from numberP; clear the list and raise needs_remake. -/
def doParticleRemoval (s : SimData) : Except Bool SimData :=
  if s.remove_list.isEmpty ∨ s.numberP = 0 then Except.ok s
  else
    let need_removal := (s.remove_list.filter (fun idx => s.typ.getD idx 0 != -1)).length
    let s1 := { s with typ := s.remove_list.foldl (fun ts idx => ts.set idx (-1)) s.typ }
    match fillHoles s.remove_list s.remove_list s.sizeP 0 s1 with
    | Except.error e => Except.error e
    | Except.ok (s2, removed) =>
      Except.ok { s2 with
        numberP := s2.numberP - need_removal
        remove_list := []
        needs_remake := if 0 < removed then true else s2.needs_remake }

/-- Guarded zeroing of the leading rows of a field, starting at row index n. -/
def zeroRowsUpTo (sz : ℕ) : ℕ → List (List ℚ) → List (List ℚ)
  | _, [] => []
  | n, r :: rs => (if n < sz then r.map (fun _ => (0 : ℚ)) else r) :: zeroRowsUpTo sz (n + 1) rs

/-- Embeds SimData::clearF (simdata.cpp 254-257): the loop writes zero to
vdata[1][0][i] for i in [0, sizeP * dim), and vdata[1] is the V field (the
accessor V() returns vdata[1]; F() returns vdata[2]).  With rows of length
dim this zeroes exactly the first sizeP rows of v. -/
def clearF (s : SimData) : SimData :=
  { s with v := zeroRowsUpTo s.sizeP 0 s.v }

/-- Embeds SimData::getLocalID (simdata.cpp 259-263): -1 means no such particle. -/
def getLocalID (g : ℤ) (s : SimData) : ℤ :=
  match lookupKey g s.id_map with
  | none => -1
  | some i => (i : ℤ)

end SimData

open SimData

/-- Store built by the S5 scenario of claim C1: add 2n particles in 2D
(positions and velocities zero, radius and inverse mass one, type 0). -/
def s5_store (n : ℕ) : SimData :=
  (List.range n).foldl (fun s _ => addParticle 2 [0, 0] [0, 0] 1 1 0 s) SimData.empty

/-- S5 scenario continued: mark every even-indexed particle for removal. -/
def s5_marked (n : ℕ) : SimData :=
  (List.range n).foldl (fun s k => markForRemoval 2 (2 * k) s) (s5_store (2 * n))

/-- Four-particle 1D store whose id map is populated the way the spec intends
(id_map maps each live global id to its index), used to exercise
doParticleRemoval past the missing-id throw. -/
def c1_mapped_store : SimData :=
  ⟨[[0], [1], [2], [3]], [[0], [0], [0], [0]], [[0], [0], [0], [0]],
   [1, 1, 1, 1], [1, 1, 1, 1], [0, 0, 0, 0], [0, 1, 2, 3], 4, 4, 4,
   [(0, 0), (1, 1), (2, 2), (3, 3)], [], false⟩

/-- The mapped store with indices 0 and 2 marked for removal. -/
def c1_mapped_marked : SimData :=
  markForRemoval 1 0 (markForRemoval 1 2 c1_mapped_store)

/-- Helper: ordered insertion of an element above everything in the list
appends it at the end. -/
theorem insertSorted_append (i : ℕ) (l : List ℕ) (h : ∀ a ∈ l, a < i) :
    insertSorted i l = l ++ [i] := by
  induction l with
  | nil => rfl
  | cons a t ih =>
    have ha : a < i := h a (by simp)
    simp only [insertSorted, if_neg (by omega : ¬ i < a), if_neg (by omega : ¬ i = a),
      List.cons_append, List.cons.injEq, true_and]
    exact ih (fun b hb => h b (by simp [hb]))

/-- Helper: every entry of a zero replicate reads back as zero. -/
theorem getD_replicate_zero (m i : ℕ) : (List.replicate m (0 : ℤ)).getD i 0 = 0 := by
  induction m generalizing i with
  | zero => simp [List.getD]
  | succ m2 ih =>
    cases i with
    | zero => simp [List.replicate, List.getD]
    | succ j =>
      rw [List.replicate_succ]
      show (List.replicate m2 (0 : ℤ)).getD j 0 = 0
      exact ih j

/-- Helper: unfolding the S5 store one particle at a time. -/
theorem s5_store_succ (m : ℕ) :
    s5_store (m + 1) = addParticle 2 [0, 0] [0, 0] 1 1 0 (s5_store m) := by
  unfold s5_store
  rw [List.range_succ, List.foldl_append]
  rfl

/-- Helper: counters, id map, pending set and types of the S5 store. -/
theorem s5_store_fields (m : ℕ) :
    (s5_store m).typ = List.replicate m 0 ∧ (s5_store m).numberP = m ∧ (s5_store m).sizeP = m
    ∧ (s5_store m).id_map = [] ∧ (s5_store m).remove_list = [] := by
  induction m with
  | zero => exact ⟨rfl, rfl, rfl, rfl, rfl⟩
  | succ m2 ih =>
    obtain ⟨h1, h2, h3, h4, h5⟩ := ih
    rw [s5_store_succ]
    refine ⟨?_, ?_, ?_, ?_, ?_⟩ <;>
      simp [addParticle, h1, h2, h3, h4, h5, List.replicate_succ']

/-- Marking stage of the S5 scenario, stopped after k of the n even indices. -/
def s5_mark_stage (n k : ℕ) : SimData :=
  (List.range k).foldl (fun s j => markForRemoval 2 (2 * j) s) (s5_store (2 * n))

/-- Helper: unfolding the marking stage one index at a time. -/
theorem s5_mark_stage_succ (n k : ℕ) :
    s5_mark_stage n (k + 1) = markForRemoval 2 (2 * k) (s5_mark_stage n k) := by
  unfold s5_mark_stage
  rw [List.range_succ, List.foldl_append]
  rfl

/-- Helper: invariant of the marking stage: the pending set is exactly the even
indices below 2k, the counters are untouched, the id map stays empty and every
even index at or above 2k is still live. -/
theorem s5_mark_stage_invariant (n k : ℕ) :
    (s5_mark_stage n k).remove_list = List.map (fun j => 2 * j) (List.range k)
    ∧ (s5_mark_stage n k).numberP = 2 * n ∧ (s5_mark_stage n k).sizeP = 2 * n
    ∧ (s5_mark_stage n k).id_map = []
    ∧ ∀ j, k ≤ j → (s5_mark_stage n k).typ.getD (2 * j) 0 = 0 := by
  induction k with
  | zero =>
    obtain ⟨h1, h2, h3, h4, h5⟩ := s5_store_fields (2 * n)
    exact ⟨h5, h2, h3, h4, fun j _ => by rw [show s5_mark_stage n 0 = s5_store (2 * n) from rfl, h1, getD_replicate_zero]⟩
  | succ k2 ih =>
    obtain ⟨h1, h2, h3, h4, h5⟩ := ih
    have hguard : ¬ (s5_mark_stage n k2).typ.getD (2 * k2) 0 < 0 := by
      rw [h5 k2 (le_refl k2)]; decide
    rw [s5_mark_stage_succ]
    unfold markForRemoval
    rw [if_neg hguard]
    refine ⟨?_, h2, h3, ?_, ?_⟩
    · show insertSorted (2 * k2) (s5_mark_stage n k2).remove_list = _
      rw [h1, insertSorted_append]
      · rw [List.range_succ, List.map_append]
        rfl
      · intro a ha
        simp only [List.mem_map, List.mem_range] at ha
        omega
    · show eraseKey _ (s5_mark_stage n k2).id_map = []
      rw [h4]; rfl
    · intro j hj
      show ((s5_mark_stage n k2).typ.set (2 * k2) (-1)).getD (2 * j) 0 = 0
      rw [getD_set_ne _ _ _ _ _ (by omega : 2 * k2 ≠ 2 * j)]
      exact h5 j (by omega)

/-- Helper: move_particle throws whenever the id map is empty. -/
theorem move_particle_error (src dst : ℕ) (s : SimData) (h : s.id_map = []) :
    move_particle src dst s = Except.error false := by
  unfold move_particle
  simp only []
  by_cases hd : (-1 : ℤ) < s.typ.getD dst 0
  · rw [if_pos hd, h]
    rfl
  · rw [if_neg hd, h]
    rfl

/-- Helper: the inner while loop stops at once when the start index is pending
in neither sense (not in the remove list). -/
theorem skipBack_not_mem (all : List ℕ) (idx c : ℕ) (h : c + 1 ∉ all) :
    skipBack all idx (c + 1) = c + 1 := by
  unfold skipBack
  exact if_neg (fun hc => h hc.1)

/-- Helper: the hole-filling loop throws at its first move when the id map of
the store is empty and the tail scan stops above hole 0. -/
theorem fillHoles_error_head (all rest : List ℕ) (cb0 removed : ℕ) (s : SimData)
    (hmap : s.id_map = []) (hskip : 0 < skipBack all 0 (cb0 - 1)) :
    fillHoles all (0 :: rest) cb0 removed s = Except.error false := by
  simp only [fillHoles]
  rw [if_pos hskip, move_particle_error _ _ _ hmap]

/-- Helper: doParticleRemoval propagates an error of its hole-filling loop. -/
theorem doParticleRemoval_error_of (s : SimData) (hne : s.remove_list.isEmpty = false)
    (hnum : s.numberP ≠ 0)
    (herr : fillHoles s.remove_list s.remove_list s.sizeP 0
        { s with typ := s.remove_list.foldl (fun ts idx => ts.set idx (-1)) s.typ }
        = Except.error false) :
    doParticleRemoval s = Except.error false := by
  unfold doParticleRemoval
  rw [if_neg (by simp [hne, hnum])]
  simp only [herr]

/-- C1: the claim fails on the code, at every scale of the S5 scenario.  After
adding 2(n+1) particles and marking the n+1 even indices, the compaction throws
(the source's throw false), because addParticle never inserts into id_map, so
move_particle's lookup of the moved global id fails.  Moreover, even on a store
whose id map is populated as the spec intends, with four live particles and
indices 0 and 2 pending removal, the call returns with numberP still 4
(need_removal counts types that are not -1, but markForRemoval already set
them all to -1) and index 2 inside [0, number) still tombstoned. -/
theorem c1_doParticleRemoval_not_compact :
    (∀ n : ℕ, doParticleRemoval (s5_marked (n + 1)) = Except.error false)
    ∧ Except.map (fun t => (t.numberP, t.typ.getD 2 0)) (doParticleRemoval c1_mapped_marked)
        = Except.ok (4, -1) := by
  constructor
  · intro n
    have hmn : s5_marked (n + 1) = s5_mark_stage (n + 1) (n + 1) := rfl
    obtain ⟨h1, h2, h3, h4, _⟩ := s5_mark_stage_invariant (n + 1) (n + 1)
    have hrl : (s5_mark_stage (n + 1) (n + 1)).remove_list
        = 0 :: List.map ((fun j => 2 * j) ∘ Nat.succ) (List.range n) := by
      rw [h1, List.range_succ_eq_map, List.map_cons, List.map_map]
    rw [hmn]
    apply doParticleRemoval_error_of
    · rw [hrl]; rfl
    · rw [h2]; omega
    · rw [hrl, h3]
      apply fillHoles_error_head
      · exact h4
      · have he : 2 * (n + 1) - 1 = (2 * n) + 1 := by omega
        rw [he, skipBack_not_mem]
        · omega
        · intro hmem
          simp only [List.mem_cons, List.mem_map, List.mem_range, Function.comp] at hmem
          rcases hmem with hh | ⟨j, _, hj⟩ <;> omega
  · rfl

/-- Witness for C1 at the scale of scenario S5: adding 1000 particles and
marking the 500 even indices makes the compaction throw. -/
theorem c1_doParticleRemoval_not_compact_witness :
    doParticleRemoval (s5_marked 500) = Except.error false :=
  c1_doParticleRemoval_not_compact.1 499

/-- One-particle store with distinct values in X, V and F. -/
def c2_store : SimData :=
  ⟨[[7]], [[3]], [[5]], [1], [1], [0], [0], 1, 1, 1, [], [], false⟩

/-- C2: the claim fails on the code.  SimData::clearF writes zeros into
vdata[1], which is the velocity field V, not the force field F (vdata[2]):
on a store with V = [[3]], F = [[5]], X = [[7]] it zeroes V and leaves F
and X unchanged. -/
theorem c2_clearF_zeroes_velocity_not_force :
    (clearF c2_store).v = [[0]] ∧ (clearF c2_store).f = [[5]] ∧ (clearF c2_store).x = [[7]] := by
  decide

/-- One particle added to the empty store. -/
def c3_store : SimData :=
  addParticle 2 [1 / 2, 1 / 2] [0, 0] 1 1 0 SimData.empty

/-- C3: the claim fails on the code.  After a single addParticle on the empty
store, particle 0 is live with global id 0, but the id map is empty (no code
path in simdata.cpp ever inserts into id_map), so getLocalID returns the
no-such-particle sentinel -1 instead of 0. -/
theorem c3_id_map_never_populated :
    c3_store.typ.getD 0 0 = 0 ∧ c3_store.gid.getD 0 (-1) = 0
    ∧ c3_store.id_map = [] ∧ getLocalID 0 c3_store = -1 := by
  decide

/-- Helper: markForRemoval returns the store unchanged on a tombstoned index. -/
theorem markForRemoval_of_neg (dim idx : ℕ) (s : SimData) (h : s.typ.getD idx 0 < 0) :
    markForRemoval dim idx s = s := by
  unfold markForRemoval
  exact if_pos h

/-- Helper: after marking an in-range live index, its type is negative. -/
theorem markForRemoval_typ_neg (dim idx : ℕ) (s : SimData) (hidx : idx < s.typ.length)
    (h : ¬ s.typ.getD idx 0 < 0) :
    (markForRemoval dim idx s).typ.getD idx 0 < 0 := by
  unfold markForRemoval
  rw [if_neg h]
  show (s.typ.set idx (-1)).getD idx 0 < 0
  rw [getD_set_self _ _ _ _ hidx]
  decide

/-- C9: markForRemoval on an index whose type is already negative returns the
store unchanged (every field, counter, the id map and the pending set), and on
any in-range index applying it twice equals applying it once. -/
theorem c9_markForRemoval_idempotent :
    (∀ dim idx (s : SimData), s.typ.getD idx 0 < 0 → markForRemoval dim idx s = s)
    ∧ (∀ dim idx (s : SimData), idx < s.typ.length →
        markForRemoval dim idx (markForRemoval dim idx s) = markForRemoval dim idx s) := by
  constructor
  · exact markForRemoval_of_neg
  · intro dim idx s hidx
    by_cases h : s.typ.getD idx 0 < 0
    · rw [markForRemoval_of_neg dim idx s h, markForRemoval_of_neg dim idx s h]
    · exact markForRemoval_of_neg dim idx _ (markForRemoval_typ_neg dim idx s hidx h)

/-- One-particle tombstoned store used to instantiate the C9 theorem. -/
def c9_store : SimData :=
  ⟨[[2]], [[1]], [[1]], [1], [1], [-1], [-1], 0, 1, 1, [], [0], false⟩

/-- Witness for C9 at a concrete store: a tombstoned index is left unchanged,
and a double mark equals a single mark on a live in-range index. -/
theorem c9_markForRemoval_idempotent_witness :
    markForRemoval 1 0 c9_store = c9_store
    ∧ markForRemoval 1 0 (markForRemoval 1 0 c2_store) = markForRemoval 1 0 c2_store :=
  ⟨c9_markForRemoval_idempotent.1 1 0 c9_store (by decide),
   c9_markForRemoval_idempotent.2 1 0 c2_store (by decide)⟩

/-- Index-carrying map over a flattened array, modelling an indexed for loop. -/
def forEachIdx (g : ℕ → ℚ → ℚ) : ℕ → List ℚ → List ℚ
  | _, [] => []
  | k, a :: t => g k a :: forEachIdx g (k + 1) t

/-- Helper: an indexed loop rewrites entry i (below the length) through g. -/
theorem forEachIdx_getD (g : ℕ → ℚ → ℚ) (l : List ℚ) (k i : ℕ) (h : i < l.length) :
    (forEachIdx g k l).getD i 0 = g (k + i) (l.getD i 0) := by
  induction l generalizing k i with
  | nil => simp at h
  | cons a t ih =>
    cases i with
    | zero => simp [forEachIdx, List.getD]
    | succ j =>
      have hj : j < t.length := by simpa using h
      have := ih (k + 1) j hj
      simpa [forEachIdx, List.getD, Nat.add_assoc, Nat.add_comm 1 j] using this

namespace VV

/-- Particle data of GFlowSim4 as the velocity-Verlet integrator sees it:
flattened position, velocity and force arrays (row-major, DIMENSIONS entries
per particle), the inverse-mass array, and the owned-particle count
simData->number. -/
structure VVData where
  x : List ℚ
  v : List ℚ
  f : List ℚ
  im : List ℚ
  number : ℕ
  deriving DecidableEq

/-- Half-kick loop of GFlowSim4 velocityverlet.cpp (SIMD_NONE branch, lines
22-32 and 96-106): for every flat index i below number*DIMENSIONS,
v[i] += hdt * im[i / DIMENSIONS] * f[i]. -/
def kick (hdt : ℚ) (dim number : ℕ) (im f v : List ℚ) : List ℚ :=
  forEachIdx
    (fun i vi => if i < number * dim then vi + hdt * im.getD (i / dim) 0 * f.getD i 0 else vi)
    0 v

/-- Drift loop of GFlowSim4 velocityverlet.cpp (SIMD_NONE branch, lines 55-61):
for every flat index i below number*DIMENSIONS, x[i] += dt * v[i], with v
already half-kicked. -/
def drift (dt : ℚ) (dim number : ℕ) (v x : List ℚ) : List ℚ :=
  forEachIdx (fun i xi => if i < number * dim then xi + dt * v.getD i 0 else xi) 0 x

/-- Embeds VelocityVerlet::pre_forces (GFlowSim4 velocityverlet.cpp 11-82):
first half kick with hdt = 0.5*dt, then position update using the updated
velocities.  The force array is not touched. -/
def pre_forces (dt : ℚ) (dim : ℕ) (s : VVData) : VVData :=
  let hdt := (1 / 2) * dt
  let v1 := kick hdt dim s.number s.im s.f s.v
  let x1 := drift dt dim s.number v1 s.x
  { s with v := v1, x := x1 }

/-- Embeds VelocityVerlet::post_forces (GFlowSim4 velocityverlet.cpp 84-130):
second half kick with hdt = 0.5*dt. -/
def post_forces (dt : ℚ) (dim : ℕ) (s : VVData) : VVData :=
  { s with v := kick ((1 / 2) * dt) dim s.number s.im s.f s.v }

/-- Helper: entry i of the half-kick result, for i inside the updated range. -/
theorem kick_getD (hdt : ℚ) (dim number : ℕ) (im f v : List ℚ) (i : ℕ)
    (hl : i < v.length) (hi : i < number * dim) :
    (kick hdt dim number im f v).getD i 0
      = v.getD i 0 + hdt * im.getD (i / dim) 0 * f.getD i 0 := by
  unfold kick
  rw [forEachIdx_getD _ _ _ _ hl]
  simp [hi]

/-- Helper: entry i of the drift result, for i inside the updated range. -/
theorem drift_getD (dt : ℚ) (dim number : ℕ) (v x : List ℚ) (i : ℕ)
    (hl : i < x.length) (hi : i < number * dim) :
    (drift dt dim number v x).getD i 0 = x.getD i 0 + dt * v.getD i 0 := by
  unfold drift
  rw [forEachIdx_getD _ _ _ _ hl]
  simp [hi]

/-- One-particle 1D state with a nonzero force accumulator. -/
def c4_state : VVData := ⟨[0], [0], [2], [1], 1⟩

/-- C4 counterexample: the claim says pre_forces zeroes F, but on a
one-particle state with F = [2] the force array is unchanged and nonzero
after pre_forces. -/
theorem c4_pre_forces_counterexample :
    (pre_forces 1 1 c4_state).f = [2] ∧ ([2] : List ℚ) ≠ [0] := by
  decide

/-- C4 as amended: for every particle p below the count and dimension d,
pre_forces performs V += (dt/2)*Im*F then X += dt*V with the updated V, and
leaves F unchanged (the engine zeroes F elsewhere in the step); post_forces
performs the second half kick V += (dt/2)*Im*F. -/
theorem c4_velocity_verlet_amended (dt : ℚ) (dim : ℕ) (s : VVData) (p d : ℕ)
    (hp : p < s.number) (hd : d < dim)
    (hv : p * dim + d < s.v.length) (hx : p * dim + d < s.x.length) :
    (pre_forces dt dim s).v.getD (p * dim + d) 0
        = s.v.getD (p * dim + d) 0 + dt / 2 * s.im.getD p 0 * s.f.getD (p * dim + d) 0
    ∧ (pre_forces dt dim s).x.getD (p * dim + d) 0
        = s.x.getD (p * dim + d) 0 + dt * (pre_forces dt dim s).v.getD (p * dim + d) 0
    ∧ (pre_forces dt dim s).f = s.f
    ∧ (post_forces dt dim s).v.getD (p * dim + d) 0
        = s.v.getD (p * dim + d) 0 + dt / 2 * s.im.getD p 0 * s.f.getD (p * dim + d) 0 := by
  have hdim0 : 0 < dim := by omega
  have hi : p * dim + d < s.number * dim := by
    calc p * dim + d < p * dim + dim := by omega
    _ = (p + 1) * dim := by ring
    _ ≤ s.number * dim := Nat.mul_le_mul_right dim hp
  have hdiv : (p * dim + d) / dim = p := by
    rw [Nat.add_comm, Nat.add_mul_div_right d p hdim0, Nat.div_eq_of_lt hd, Nat.zero_add]
  refine ⟨?_, ?_, rfl, ?_⟩
  · show (kick ((1 / 2) * dt) dim s.number s.im s.f s.v).getD (p * dim + d) 0 = _
    rw [kick_getD _ _ _ _ _ _ _ hv hi, hdiv]
    ring
  · show (drift dt dim s.number (kick ((1 / 2) * dt) dim s.number s.im s.f s.v) s.x).getD
        (p * dim + d) 0 = _
    rw [drift_getD _ _ _ _ _ _ hx hi]
    rfl
  · show (kick ((1 / 2) * dt) dim s.number s.im s.f s.v).getD (p * dim + d) 0 = _
    rw [kick_getD _ _ _ _ _ _ _ hv hi, hdiv]
    ring

/-- Witness for C4 at a concrete one-particle state. -/
theorem c4_velocity_verlet_amended_witness :
    (pre_forces 1 1 c4_state).v.getD 0 0
        = c4_state.v.getD 0 0 + 1 / 2 * c4_state.im.getD 0 0 * c4_state.f.getD 0 0
    ∧ (pre_forces 1 1 c4_state).x.getD 0 0
        = c4_state.x.getD 0 0 + 1 * (pre_forces 1 1 c4_state).v.getD 0 0
    ∧ (pre_forces 1 1 c4_state).f = c4_state.f
    ∧ (post_forces 1 1 c4_state).v.getD 0 0
        = c4_state.v.getD 0 0 + 1 / 2 * c4_state.im.getD 0 0 * c4_state.f.getD 0 0 :=
  c4_velocity_verlet_amended 1 1 c4_state 0 0 (by decide) (by decide) (by decide) (by decide)

end VV

namespace Integrator

/-- State of the adaptive time-step controller of
GFlowSim/src/base/integrator.cpp (constructor defaults at lines 11-12). -/
structure IntState where
  dt : ℚ
  adjust_dt : Bool
  min_dt : ℚ
  max_dt : ℚ
  target_steps : ℕ
  step_delay : ℕ
  step_count : ℕ
  use_v : Bool
  use_a : Bool
  characteristic_length : ℚ
  deriving DecidableEq

/-- Embeds Integrator::get_max_velocity (integrator.cpp 109-142, SIMD_NONE
branch): the largest absolute velocity component, scaled by sqrt of the
dimension, which the caller passes as the rational stand-in sqrtd. -/
def get_max_velocity (sqrtd : ℚ) (v : List ℚ) : ℚ :=
  (v.foldl (fun m a => if m < |a| then |a| else m) 0) * sqrtd

/-- Local maxV of Integrator::pre_step: -1 unless use_v, then the computed max. -/
def effMaxV (useV : Bool) (maxVin : ℚ) : ℚ := if useV then maxVin else -1

/-- Local maxA of Integrator::pre_step: -1 unless use_a, then the computed max. -/
def effMaxA (useA : Bool) (maxAin : ℚ) : ℚ := if useA then maxAin else -1

/-- Local dt_v of Integrator::pre_step (integrator.cpp 41-44): stays 1 unless
use_v. -/
def dtV (s : IntState) (maxVin : ℚ) : ℚ :=
  if s.use_v then s.characteristic_length / (maxVin * (s.target_steps : ℚ)) else 1

/-- Local dt_a of Integrator::pre_step (integrator.cpp 45-48): stays 1 unless
use_a; sqrtL is the caller's rational stand-in for sqrt of the characteristic
length. -/
def dtA (s : IntState) (maxAin sqrtL : ℚ) : ℚ :=
  if s.use_a then 10 * sqrtL / (maxAin * (s.target_steps : ℚ)) else 1

/-- Embeds Integrator::pre_integrate (integrator.cpp 14-26): arm the adjuster
(step_count := step_delay), recompute the characteristic length as the mean
radius over the first number entries with non-negative type (the loop bound
size() returns the number counter in this source), and reset dt to min_dt when
adjusting. -/
def pre_integrate (s : IntState) (types : List ℤ) (sgs : List ℚ) (number : ℕ) : IntState :=
  let csum := ((types.zip sgs).take number).foldl (fun acc p => if p.1 < 0 then acc else acc + p.2) 0
  { s with
    step_count := s.step_delay
    characteristic_length := csum / (number : ℚ)
    dt := if s.adjust_dt then s.min_dt else s.dt }

/-- Embeds Integrator::pre_step (integrator.cpp 28-63): bail out when not
adjusting; wait out the step delay; bail out when both maxima are the unset
or zero values; otherwise take the candidate dt_c = min(dt_v, dt_a), drop to
it immediately or approach it as 0.9 dt + 0.1 dt_c, and clamp to
[min_dt, max_dt].  maxVin and maxAin are the values get_max_velocity and
get_max_acceleration return. -/
def pre_step (s : IntState) (maxVin maxAin sqrtL : ℚ) : IntState :=
  if s.adjust_dt = false then s
  else if s.step_count < s.step_delay then { s with step_count := s.step_count + 1 }
  else if effMaxV s.use_v maxVin = 0 ∧ effMaxA s.use_a maxAin = 0 then { s with step_count := 0 }
  else
    let dt_c := min (dtV s maxVin) (dtA s maxAin sqrtL)
    let dt1 := if dt_c < s.dt then dt_c else (9 / 10) * s.dt + (1 / 10) * dt_c
    let dt2 := if s.max_dt < dt1 then s.max_dt else if dt1 < s.min_dt then s.min_dt else dt1
    { s with step_count := 0, dt := dt2 }

/-- Controller configured as in scenario S4: min_dt 1e-4, max_dt 1e-2,
target_steps 20, default step delay 10, velocity-only adjustment. -/
def c5_base : IntState :=
  ⟨1 / 10000, true, 1 / 10000, 1 / 100, 20, 10, 0, true, false, 1 / 20⟩

/-- The S4 controller after the first adjustment (dt = 5.9e-4), rearmed. -/
def c5_second : IntState :=
  ⟨59 / 100000, true, 1 / 10000, 1 / 100, 20, 10, 10, true, false, 1 / 10⟩

/-- C5 counterexample: with min_dt 1e-4, max_dt 1e-2, target_steps 20, mean
radius 0.1 and v_max 1, the first adjustment after pre_integrate (which set
dt = min_dt = 1e-4) yields 0.9e-4 + 0.1*5e-3 = 5.9e-4, not the claimed
5e-3, because the candidate did not decrease the time step. -/
theorem c5_first_adjust_counterexample :
    (pre_step (pre_integrate c5_base [0] [1 / 10] 1) 1 0 0).dt = 59 / 100000
    ∧ (59 / 100000 : ℚ) ≠ 5 / 1000 := by
  constructor
  · norm_num [pre_step, pre_integrate, dtV, dtA, effMaxV, effMaxA, c5_base, min_def]
  · norm_num

/-- C5 as amended: whenever the controller runs (adjusting, delay elapsed,
effective maxima not both zero) the new dt is the candidate when it decreased,
else the 0.9/0.1 blend, clamped into [min_dt, max_dt]; concretely, from
dt = min_dt = 1e-4 the first adjustment with v_max 1 gives 5.9e-4 (5e-3 is
only the fixed point of repeated adjustments), and with v_max 100 the
candidate 5e-5 drops dt immediately and the clamp raises it to 1e-4. -/
theorem c5_adaptive_dt_amended :
    (∀ (s : IntState) (maxVin maxAin sqrtL : ℚ),
      s.adjust_dt = true → s.step_delay ≤ s.step_count →
      ¬(effMaxV s.use_v maxVin = 0 ∧ effMaxA s.use_a maxAin = 0) →
      s.min_dt ≤ s.max_dt →
      (pre_step s maxVin maxAin sqrtL).dt
        = max s.min_dt (min s.max_dt
            (if min (dtV s maxVin) (dtA s maxAin sqrtL) < s.dt
             then min (dtV s maxVin) (dtA s maxAin sqrtL)
             else (9 / 10) * s.dt + (1 / 10) * min (dtV s maxVin) (dtA s maxAin sqrtL))))
    ∧ (pre_step (pre_integrate c5_base [0] [1 / 10] 1) 1 0 0).dt = 59 / 100000
    ∧ (pre_step c5_second 100 0 0).dt = 1 / 10000 := by
  refine ⟨?_,
    by norm_num [pre_step, pre_integrate, dtV, dtA, effMaxV, effMaxA, c5_base, min_def],
    by norm_num [pre_step, c5_second, dtV, dtA, effMaxV, effMaxA, min_def]⟩
  intro s maxVin maxAin sqrtL hadj hdel hguard hcl
  have hc1 : ¬ (s.adjust_dt = false) := by rw [hadj]; decide
  have hc2 : ¬ (s.step_count < s.step_delay) := Nat.not_lt.mpr hdel
  unfold pre_step
  rw [if_neg hc1, if_neg hc2, if_neg hguard]
  simp only []
  show (if s.max_dt < _ then s.max_dt else _) = _
  set d1 := if min (dtV s maxVin) (dtA s maxAin sqrtL) < s.dt
      then min (dtV s maxVin) (dtA s maxAin sqrtL)
      else (9 / 10) * s.dt + (1 / 10) * min (dtV s maxVin) (dtA s maxAin sqrtL) with hd1
  by_cases h1 : s.max_dt < d1
  · rw [if_pos h1, min_eq_left h1.le, max_eq_right hcl]
  · rw [if_neg h1, min_eq_right (le_of_not_lt h1)]
    by_cases h2 : d1 < s.min_dt
    · rw [if_pos h2, max_eq_left h2.le]
    · rw [if_neg h2, max_eq_right (le_of_not_lt h2)]

/-- Witness for C5 applying the general clamp statement at the v_max = 100
instance. -/
theorem c5_adaptive_dt_amended_witness :
    (pre_step c5_second 100 0 0).dt
      = max c5_second.min_dt (min c5_second.max_dt
          (if min (dtV c5_second 100) (dtA c5_second 0 0) < c5_second.dt
           then min (dtV c5_second 100) (dtA c5_second 0 0)
           else (9 / 10) * c5_second.dt + (1 / 10) * min (dtV c5_second 100) (dtA c5_second 0 0))) :=
  c5_adaptive_dt_amended.1 c5_second 100 0 0 (by decide) (by decide)
    (by norm_num [effMaxV, effMaxA, c5_second]) (by norm_num [c5_second])

end Integrator

namespace DomainBase

/-- State of the by-motion rebuild decision of GFlowSim/src/base/domainbase.cpp. -/
structure DomState where
  skin_depth : ℚ
  motion_factor : ℚ
  mv_ratio_tolerance : ℚ
  max_update_delay : ℚ
  update_delay : ℚ
  last_check : ℚ
  last_update : ℚ
  missed_target : ℕ
  ave_miss : ℚ
  deriving DecidableEq

/-- Embeds DomainBase::maxMotion (domainbase.cpp 167-190).  Each sample
contributes the squared straight-line (non-wrapping) distance between the
snapshot and the current position; the embedding carries each sample as the
signed magnitude d with d^2 that squared distance (getDistanceSqrNoWrap lives
in a utility header not present in the source tree).  Squares at or above
(10*skin)^2 are ignored; the accumulator tracks the root of the running
maximum, and the result is twice the final root. -/
def maxMotion (skin : ℚ) (deltas : List ℚ) : ℚ :=
  2 * deltas.foldl (fun acc d => if d ^ 2 < (10 * skin) ^ 2 ∧ acc ^ 2 < d ^ 2 then |d| else acc) 0

/-- The claim-side quantity m: the largest displacement magnitude among the
samples whose squares pass the (10*skin)^2 plausibility filter. -/
def specLargestDisp (skin : ℚ) (deltas : List ℚ) : ℚ :=
  (deltas.filter (fun d => decide (d ^ 2 < (10 * skin) ^ 2))).foldl (fun m d => max m |d|) 0

/-- Helper: the source's conditional-update fold computes the maximum absolute
value over the filtered samples, for any non-negative start. -/
theorem foldl_maxd (P : ℚ) (deltas : List ℚ) : ∀ a : ℚ, 0 ≤ a →
    deltas.foldl (fun acc d => if d ^ 2 < P ∧ acc ^ 2 < d ^ 2 then |d| else acc) a
      = (deltas.filter (fun d => decide (d ^ 2 < P))).foldl (fun m d => max m |d|) a := by
  induction deltas with
  | nil => intro a _; rfl
  | cons d t ih =>
    intro a ha
    rw [List.foldl_cons, List.filter_cons]
    by_cases hp : d ^ 2 < P
    · have hfq : decide (d ^ 2 < P) = true := by simpa using hp
      rw [if_pos hfq, List.foldl_cons]
      by_cases hacc : a ^ 2 < d ^ 2
      · rw [if_pos ⟨hp, hacc⟩, ih (|d|) (abs_nonneg d)]
        congr 1
        have habs : a < |d| := by nlinarith [sq_abs d, abs_nonneg d]
        exact (max_eq_right habs.le).symm
      · rw [if_neg (fun hc => hacc hc.2), ih a ha]
        congr 1
        have habs : |d| ≤ a := by nlinarith [sq_abs d, abs_nonneg d]
        exact (max_eq_left habs).symm
    · have hfq : ¬ decide (d ^ 2 < P) = true := by simpa using hp
      rw [if_neg hfq, if_neg (fun hc => hp hc.1)]
      exact ih a ha

/-- Helper: maxMotion is twice the largest filtered displacement magnitude. -/
theorem maxMotion_eq (skin : ℚ) (deltas : List ℚ) :
    maxMotion skin deltas = 2 * specLargestDisp skin deltas := by
  unfold maxMotion specLargestDisp
  rw [foldl_maxd _ _ 0 le_rfl]

/-- Embeds DomainBase::check_needs_remake (domainbase.cpp 192-207): stamp
last_check with the current time; return true at once past max_update_delay;
otherwise form motion_ratio = maxMotion/skin_depth, always recompute
update_delay, record a missed target when motion_ratio exceeds motion_factor,
and return whether motion_ratio exceeds mv_ratio_tolerance * motion_factor
(true makes the caller, DomainBase::pre_forces, call construct()). -/
def check_needs_remake (s : DomState) (now : ℚ) (deltas : List ℚ) : Bool × DomState :=
  let s1 := { s with last_check := now }
  if s1.max_update_delay < s1.last_check - s1.last_update then (true, s1)
  else
    let mr := maxMotion s1.skin_depth deltas / s1.skin_depth
    let s2 := { s1 with
      update_delay := min s1.max_update_delay
        (s1.mv_ratio_tolerance * s1.motion_factor * (s1.last_check - s1.last_update) / mr) }
    let s3 := if s2.motion_factor < mr
      then { s2 with missed_target := s2.missed_target + 1, ave_miss := s2.ave_miss + mr }
      else s2
    (decide (s3.mv_ratio_tolerance * s3.motion_factor < mr), s3)

/-- C6: with m the largest displacement magnitude that survives the
(10*skin)^2 filter and motion_ratio = 2m/skin, the check (and hence
construct()) fires exactly when motion_ratio exceeds
mv_ratio_tolerance * motion_factor or the time since the last rebuild exceeds
max_update_delay; otherwise update_delay becomes
min(max_update_delay, mv_ratio_tolerance * motion_factor * elapsed /
motion_ratio).  The positivity hypotheses confine the statement to the regime
where the rational embedding and the C++ floating point agree (no division by
zero). -/
theorem c6_rebuild_decision (s : DomState) (now : ℚ) (deltas : List ℚ)
    (_hskin : 0 < s.skin_depth) (_hmot : 0 < maxMotion s.skin_depth deltas) :
    ((check_needs_remake s now deltas).1 = true ↔
      (s.mv_ratio_tolerance * s.motion_factor
          < 2 * specLargestDisp s.skin_depth deltas / s.skin_depth
        ∨ s.max_update_delay < now - s.last_update))
    ∧ ((check_needs_remake s now deltas).1 = false →
        (check_needs_remake s now deltas).2.update_delay
          = min s.max_update_delay
              (s.mv_ratio_tolerance * s.motion_factor * (now - s.last_update)
                / (2 * specLargestDisp s.skin_depth deltas / s.skin_depth))) := by
  unfold check_needs_remake
  simp only []
  by_cases h1 : s.max_update_delay < now - s.last_update
  · rw [if_pos h1]
    constructor
    · simp [h1]
    · intro hcontra
      simp at hcontra
  · rw [if_neg h1]
    constructor
    · simp only [decide_eq_true_eq, apply_ite DomState.mv_ratio_tolerance,
        apply_ite DomState.motion_factor, ite_self]
      rw [maxMotion_eq]
      exact ⟨Or.inl, fun h => h.resolve_right h1⟩
    · intro _
      simp only [apply_ite DomState.update_delay, ite_self]
      rw [maxMotion_eq]

/-- Rebuild-decision state used to instantiate the C6 theorem. -/
def c6_state : DomState := ⟨1 / 10, 1, 9 / 10, 1, 1 / 10000, 0, 0, 0, 0⟩

/-- Witness for C6: skin 0.1, a sample that moved 0.02 and a wrap artifact of
squared distance 9 (discarded by the (10*skin)^2 = 1 filter), checked at time
0.5 since rebuild. -/
theorem c6_rebuild_decision_witness :
    ((check_needs_remake c6_state (1 / 2) [1 / 50, 3]).1 = true ↔
      (c6_state.mv_ratio_tolerance * c6_state.motion_factor
          < 2 * specLargestDisp c6_state.skin_depth [1 / 50, 3] / c6_state.skin_depth
        ∨ c6_state.max_update_delay < 1 / 2 - c6_state.last_update))
    ∧ ((check_needs_remake c6_state (1 / 2) [1 / 50, 3]).1 = false →
        (check_needs_remake c6_state (1 / 2) [1 / 50, 3]).2.update_delay
          = min c6_state.max_update_delay
              (c6_state.mv_ratio_tolerance * c6_state.motion_factor
                * (1 / 2 - c6_state.last_update)
                / (2 * specLargestDisp c6_state.skin_depth [1 / 50, 3]
                  / c6_state.skin_depth))) :=
  c6_rebuild_decision c6_state (1 / 2) [1 / 50, 3] (by norm_num [c6_state])
    (by rw [maxMotion_eq]; norm_num [specLargestDisp, c6_state, abs_of_pos])

end DomainBase

namespace GFlow

/-- Per-axis boundary condition flags (gflow.hpp BCFlag). -/
inductive BCFlag where
  | OPEN
  | WRAP
  | REFL
  | REPL
  deriving DecidableEq

/-- C's fmod on rationals: a - trunc(a/b)*b (truncation toward zero); total,
with the b = 0 case unused by the wrap code. -/
def cfmod (a b : ℚ) : ℚ :=
  if b = 0 then a
  else a - b * (((if a / b < 0 then Int.ceil (a / b) else Int.floor (a / b)) : ℤ) : ℚ)

/-- Per-coordinate body of GFlow::wrapPositions (gflow.cpp 531-545): below the
minimum the coordinate becomes max - fmod(min - x, width); at or above the
maximum it becomes fmod(x - min, width) + min; otherwise it is unchanged. -/
def wrapCoord (bn bx xv : ℚ) : ℚ :=
  if xv < bn then bx - cfmod (bn - xv) (bx - bn)
  else if bx ≤ xv then cfmod (xv - bn) (bx - bn) + bn
  else xv

/-- Inner loop of GFlow::wrapPositions over the axes of one particle, keeping
the axis index; only axes flagged WRAP are transformed. -/
def wrapRow (bcs : List BCFlag) (bmin bmax : List ℚ) : ℕ → List ℚ → List ℚ
  | _, [] => []
  | d, a :: t =>
    (if bcs.getD d BCFlag.OPEN = BCFlag.WRAP
      then wrapCoord (bmin.getD d 0) (bmax.getD d 0) a else a)
      :: wrapRow bcs bmin bmax (d + 1) t

/-- Embeds GFlow::wrapPositions (gflow.cpp 531-545): every particle below the
loop bound size (simData->size(), the live count in this source) has its
WRAP-axis coordinates wrapped. -/
def wrapPositions (bcs : List BCFlag) (bmin bmax : List ℚ) (size : ℕ) :
    ℕ → List (List ℚ) → List (List ℚ)
  | _, [] => []
  | n, r :: rs =>
    (if n < size then wrapRow bcs bmin bmax 0 r else r)
      :: wrapPositions bcs bmin bmax size (n + 1) rs

/-- Helper: entry d of a wrapped row. -/
theorem wrapRow_getD (bcs : List BCFlag) (bmin bmax : List ℚ) (r : List ℚ) (k d : ℕ)
    (h : d < r.length) :
    (wrapRow bcs bmin bmax k r).getD d 0
      = if bcs.getD (k + d) BCFlag.OPEN = BCFlag.WRAP
        then wrapCoord (bmin.getD (k + d) 0) (bmax.getD (k + d) 0) (r.getD d 0)
        else r.getD d 0 := by
  induction r generalizing k d with
  | nil => simp at h
  | cons a t ih =>
    cases d with
    | zero => simp [wrapRow, List.getD]
    | succ j =>
      have hj : j < t.length := by simpa using h
      have := ih (k + 1) j hj
      simpa [wrapRow, List.getD, Nat.add_assoc, Nat.add_comm 1 j] using this

/-- Helper: row n of the wrapped position array. -/
theorem wrapPositions_getD (bcs : List BCFlag) (bmin bmax : List ℚ) (size : ℕ)
    (x : List (List ℚ)) (k n : ℕ) (h : n < x.length) :
    (wrapPositions bcs bmin bmax size k x).getD n []
      = if k + n < size then wrapRow bcs bmin bmax 0 (x.getD n []) else x.getD n [] := by
  induction x generalizing k n with
  | nil => simp at h
  | cons r rs ih =>
    cases n with
    | zero => simp [wrapPositions, List.getD]
    | succ j =>
      have hj : j < rs.length := by simpa using h
      have := ih (k + 1) j hj
      simpa [wrapPositions, List.getD, Nat.add_assoc, Nat.add_comm 1 j] using this

/-- Helper: for positive arguments, C's fmod is the floor remainder, which
lies in [0, b). -/
theorem cfmod_nonneg_lt (a b : ℚ) (ha : 0 < a) (hb : 0 < b) :
    0 ≤ cfmod a b ∧ cfmod a b < b := by
  unfold cfmod
  rw [if_neg hb.ne', if_neg (not_lt.mpr (le_of_lt (div_pos ha hb)))]
  have h1 : a - b * ((Int.floor (a / b) : ℤ) : ℚ) = b * Int.fract (a / b) := by
    rw [← Int.self_sub_floor, mul_sub, mul_comm b (a / b), div_mul_cancel₀ a hb.ne']
  constructor
  · rw [h1]
    exact mul_nonneg hb.le (Int.fract_nonneg _)
  · rw [h1]
    calc b * Int.fract (a / b) < b * 1 := by
          exact mul_lt_mul_of_pos_left (Int.fract_lt_one _) hb
    _ = b := mul_one b

/-- C10: after wrapPositions every WRAP-axis coordinate of every particle below
size lies in the closed interval [min, max]; and the upper end is attained: a
coordinate below min by exactly a positive whole number of widths maps to
exactly max, which differs from min. -/
theorem c10_wrap_closed_interval :
    (∀ (bcs : List BCFlag) (bmin bmax : List ℚ) (size : ℕ) (x : List (List ℚ)) (n d : ℕ),
      n < size → n < x.length → d < (x.getD n []).length →
      bcs.getD d BCFlag.OPEN = BCFlag.WRAP →
      bmin.getD d 0 < bmax.getD d 0 →
      bmin.getD d 0 ≤ ((wrapPositions bcs bmin bmax size 0 x).getD n []).getD d 0
      ∧ ((wrapPositions bcs bmin bmax size 0 x).getD n []).getD d 0 ≤ bmax.getD d 0)
    ∧ (∀ (bn bx : ℚ) (k : ℕ), bn < bx → 1 ≤ k →
      wrapCoord bn bx (bn - k * (bx - bn)) = bx ∧ bx ≠ bn) := by
  constructor
  · intro bcs bmin bmax size x n d hn hnl hdl hbc hlt
    rw [wrapPositions_getD _ _ _ _ _ _ _ hnl, if_pos (by simpa using hn),
      wrapRow_getD _ _ _ _ _ _ hdl]
    rw [Nat.zero_add, if_pos hbc]
    set bn := bmin.getD d 0
    set bx := bmax.getD d 0
    set xv := (x.getD n []).getD d 0
    have hw : 0 < bx - bn := by linarith
    unfold wrapCoord
    by_cases h1 : xv < bn
    · rw [if_pos h1]
      obtain ⟨hge, hltm⟩ := cfmod_nonneg_lt (bn - xv) (bx - bn) (by linarith) hw
      constructor <;> linarith
    · rw [if_neg h1]
      by_cases h2 : bx ≤ xv
      · rw [if_pos h2]
        obtain ⟨hge, hltm⟩ := cfmod_nonneg_lt (xv - bn) (bx - bn) (by linarith) hw
        constructor <;> linarith
      · rw [if_neg h2]
        constructor <;> linarith [not_lt.mp h1, not_le.mp h2]
  · intro bn bx k hlt hk
    have hw : 0 < bx - bn := by linarith
    have hkp : 0 < (k : ℚ) := by
      have : (1 : ℚ) ≤ (k : ℚ) := by exact_mod_cast hk
      linarith
    have hxv : bn - (bn - k * (bx - bn)) = k * (bx - bn) := by ring
    have hlt2 : bn - k * (bx - bn) < bn := by nlinarith
    constructor
    · unfold wrapCoord
      rw [if_pos hlt2, hxv]
      have hdiv : (k : ℚ) * (bx - bn) / (bx - bn) = (k : ℚ) := by
        field_simp
      unfold cfmod
      rw [if_neg hw.ne', hdiv, if_neg (not_lt.mpr hkp.le)]
      rw [Int.floor_natCast]
      push_cast
      ring
    · exact fun h => absurd h.symm hlt.ne

/-- Witness for C10: one particle at -1 in a unit wrap box lands exactly on the
upper boundary 1, inside [0, 1]; and the attainment instance at k = 1. -/
theorem c10_wrap_closed_interval_witness :
    ((0 : ℚ) ≤ ((wrapPositions [BCFlag.WRAP] [0] [1] 1 0 [[-1]]).getD 0 []).getD 0 0
      ∧ ((wrapPositions [BCFlag.WRAP] [0] [1] 1 0 [[-1]]).getD 0 []).getD 0 0 ≤ 1)
    ∧ (wrapCoord 0 1 (0 - (1 : ℕ) * (1 - 0)) = 1 ∧ (1 : ℚ) ≠ 0) :=
  ⟨by
    have := c10_wrap_closed_interval.1 [BCFlag.WRAP] [0] [1] 1 [[-1]] 0 0
      (by decide) (by decide) (by decide) (by decide) (by norm_num)
    simpa using this,
   by
    have := c10_wrap_closed_interval.2 0 1 1 (by norm_num) (by omega)
    simpa using this⟩

/-- Control state of GFlow::run (gflow.cpp 120-297): the running flag, the
elapsed and requested times of this run, the cumulative total time and the
current time step.  The particle and collaborator state is abstracted away. -/
structure GState where
  running : Bool
  elapsed_time : ℚ
  requested_time : ℚ
  total_time : ℚ
  dt : ℚ
  deriving DecidableEq

/-- Effects of one iteration's collaborator fan-outs on the control state.
Collaborators reach the flag only through GFlow::setRunning; no caller in the
source raises it mid-run, so each phase contributes an AND factor (false when
some collaborator stops the run): keepA for the phases before the post-step
check, keepB for the post_step fan-out, mpiKeep for the final AND-reduction
across domains (identity in a single-domain run).  dtA and dtB are the time
step rewrites by the integrator's pre_step and by the post_step fan-out. -/
structure StepEnv where
  keepA : Bool
  keepB : Bool
  mpiKeep : Bool
  dtA : ℚ → ℚ
  dtB : ℚ → ℚ

/-- The time step the loop tail reads (integrator->getTimeStep() after the
post_step fan-out, gflow.cpp 253). -/
def stepDt (e : StepEnv) (s : GState) : ℚ := e.dtB (e.dtA s.dt)

/-- Embeds one iteration of the while loop of GFlow::run (gflow.cpp 177-275):
collaborator phases, the post-step check (requested_time <= elapsed_time sets
running false, line 244), the post_step fan-out, the timer updates
elapsed_time += dt and total_time += dt (lines 253-254), the precision check
(total_time - dt == total_time sets running false, lines 256-259), and the
AND sync of the running flag (line 274). -/
def gstep (e : StepEnv) (s : GState) : GState :=
  let s1 : GState := { s with running := s.running && e.keepA, dt := e.dtA s.dt }
  let s2 := if s1.requested_time ≤ s1.elapsed_time then { s1 with running := false } else s1
  let s3 := { s2 with running := s2.running && e.keepB, dt := e.dtB s2.dt }
  let dt := s3.dt
  let s4 := { s3 with elapsed_time := s3.elapsed_time + dt, total_time := s3.total_time + dt }
  let s5 := if s4.total_time - dt = s4.total_time then { s4 with running := false } else s4
  { s5 with running := s5.running && e.mpiKeep }

/-- Embeds the while loop of GFlow::run (gflow.cpp 177): iterate while running
and requested_time is positive; fuelled recursion with one environment per
iteration. -/
def runLoop : ℕ → (ℕ → StepEnv) → GState → GState
  | 0, _, s => s
  | n + 1, es, s =>
    if s.running = true ∧ 0 < s.requested_time
    then runLoop n (fun k => es (k + 1)) (gstep (es 0) s) else s

/-- C8: after a step in which, at the end-of-step checks, the elapsed time has
reached the requested time, or a collaborator (any phase, or the cross-domain
AND) has set running to false, or the time step read at the loop tail no
longer advances total_time (dt = 0 in exact arithmetic, where the source's
total_time - dt == total_time test and the claim's total_time + dt ==
total_time test agree), the running flag is false and the loop executes no
further step. -/
theorem c8_run_loop_stops (e : StepEnv) (s : GState) (n : ℕ) (es : ℕ → StepEnv)
    (h : s.requested_time ≤ s.elapsed_time
      ∨ (e.keepA = false ∨ e.keepB = false ∨ e.mpiKeep = false)
      ∨ s.total_time + stepDt e s = s.total_time) :
    (gstep e s).running = false ∧ runLoop n es (gstep e s) = gstep e s := by
  have hfst : (gstep e s).running = false := by
    rcases h with hreq | (h1 | h2 | h3) | hdt
    · simp [gstep, hreq, apply_ite GState.running]
    · simp [gstep, h1, apply_ite GState.running]
    · simp [gstep, h2, apply_ite GState.running]
    · simp [gstep, h3, apply_ite GState.running]
    · have hdt0 : e.dtB (e.dtA s.dt) = 0 := by
        have := add_right_eq_self.mp hdt
        simpa [stepDt] using this
      simp [gstep, hdt0, apply_ite GState.running, apply_ite GState.dt,
        apply_ite GState.total_time]
  refine ⟨hfst, ?_⟩
  cases n with
  | zero => rfl
  | succ m => simp [runLoop, hfst]

/-- Control state used to instantiate the C8 theorem: requested time already
elapsed. -/
def c8_state : GState := ⟨true, 5, 3, 7, 1⟩

/-- Step environment in which no collaborator stops the run and the time step
is left alone. -/
def c8_env : StepEnv := ⟨true, true, true, fun q => q, fun q => q⟩

/-- Witness for C8: with the requested time (3) already reached by the elapsed
time (5), the step clears the running flag and the loop makes no further
step. -/
theorem c8_run_loop_stops_witness :
    (gstep c8_env c8_state).running = false
    ∧ runLoop 4 (fun _ => c8_env) (gstep c8_env c8_state) = gstep c8_env c8_state :=
  c8_run_loop_stops c8_env c8_state 4 (fun _ => c8_env) (Or.inl (by norm_num [c8_state]))

/-- Read entry (n, d) of a two-dimensional field array. -/
def getE (f : List (List ℚ)) (n d : ℕ) : ℚ := (f.getD n []).getD d 0

/-- Write entry (n, d) of a two-dimensional field array. -/
def setE (f : List (List ℚ)) (n d : ℕ) (a : ℚ) : List (List ℚ) :=
  f.set n ((f.getD n []).set d a)

/-- Helper: reading back the written entry. -/
theorem getE_setE_same (f : List (List ℚ)) (n d : ℕ) (a : ℚ)
    (hn : n < f.length) (hd : d < (f.getD n []).length) :
    getE (setE f n d a) n d = a := by
  unfold getE setE
  rw [getD_set_self _ _ _ _ hn, getD_set_self _ _ _ _ hd]

/-- Helper: reading any other entry is unchanged. -/
theorem getE_setE_ne (f : List (List ℚ)) (n d : ℕ) (a : ℚ) (m e : ℕ)
    (h : ¬(m = n ∧ e = d)) :
    getE (setE f n d a) m e = getE f m e := by
  unfold getE setE
  by_cases hm : m = n
  · subst hm
    have he : e ≠ d := fun hc => h ⟨rfl, hc⟩
    by_cases hn : m < f.length
    · rw [getD_set_self _ _ _ _ hn, getD_set_ne _ _ _ _ _ (fun hc => he hc.symm)]
    · rw [set_oob _ _ _ (le_of_not_lt hn)]
  · rw [getD_set_ne _ _ _ _ _ (fun hc => hm hc.symm)]

/-- Helper: writing an entry keeps the outer length. -/
theorem setE_length (f : List (List ℚ)) (n d : ℕ) (a : ℚ) :
    (setE f n d a).length = f.length := by
  simp [setE]

/-- Helper: writing an entry keeps every row length. -/
theorem setE_row_length (f : List (List ℚ)) (n d : ℕ) (a : ℚ) (m : ℕ) :
    ((setE f n d a).getD m []).length = (f.getD m []).length := by
  unfold setE
  by_cases hm : m = n
  · subst hm
    by_cases hn : m < f.length
    · rw [getD_set_self _ _ _ _ hn, List.length_set]
    · rw [set_oob _ _ _ (le_of_not_lt hn)]
  · rw [getD_set_ne _ _ _ _ _ (fun hc => hm hc.symm)]

/-- Clamp to the non-negative half line.  Modelled from the spec: the repulse
rule adds k_d * clamp(-V, 0, infinity); the clamp helper lives in a utility
header that is not part of the source tree. -/
def clamp (r : ℚ) : ℚ := if r < 0 then 0 else r

/-- Per-particle, per-axis body of GFlow::repulsePositions (gflow.cpp 582-595):
given position and velocity components and the current force component,
returns the new force component, the boundaryForce increment and the
boundaryEnergy increment.  Below the minimum the force k_r dx + k_d clamp(-v)
is added; above the maximum the mirrored force is subtracted; the energy
increment is (1/2) k_r dx^2 on both sides. -/
def repulseCell (kr kd bn bx xnd vnd fnd : ℚ) : ℚ × ℚ × ℚ :=
  if xnd < bn then
    let dx := bn - xnd
    let fv := kr * dx + kd * clamp (-vnd)
    (fnd + fv, fv, 1 / 2 * kr * dx ^ 2)
  else if bx < xnd then
    let dx := xnd - bx
    let fv := kr * dx + kd * clamp vnd
    (fnd - fv, fv, 1 / 2 * kr * dx ^ 2)
  else (fnd, 0, 0)

/-- The claim-shaped signed force increment of the repulse rule. -/
def bForceDelta (kr kd bn bx xnd vnd : ℚ) : ℚ :=
  if xnd < bn then kr * (bn - xnd) + kd * clamp (-vnd)
  else if bx < xnd then -(kr * (xnd - bx) + kd * clamp vnd)
  else 0

/-- The unsigned force magnitude accumulated into boundaryForce. -/
def bForceTerm (kr kd bn bx xnd vnd : ℚ) : ℚ :=
  if xnd < bn then kr * (bn - xnd) + kd * clamp (-vnd)
  else if bx < xnd then kr * (xnd - bx) + kd * clamp vnd
  else 0

/-- The boundary-energy contribution (1/2) k_r overshoot^2 of one pair, zero
when the particle does not violate the axis. -/
def bEnergyTerm (kr bn bx xnd : ℚ) : ℚ :=
  if xnd < bn then 1 / 2 * kr * (bn - xnd) ^ 2
  else if bx < xnd then 1 / 2 * kr * (xnd - bx) ^ 2
  else 0

/-- Helper: the cell body in terms of the claim-shaped increments. -/
theorem repulseCell_eq (kr kd bn bx xnd vnd fnd : ℚ) :
    repulseCell kr kd bn bx xnd vnd fnd
      = (fnd + bForceDelta kr kd bn bx xnd vnd,
         bForceTerm kr kd bn bx xnd vnd,
         bEnergyTerm kr bn bx xnd) := by
  unfold repulseCell bForceDelta bForceTerm bEnergyTerm
  split_ifs with h1 h2
  · rfl
  · simp only [Prod.mk.injEq]
    exact ⟨by ring, trivial⟩
  · simp only [Prod.mk.injEq]
    exact ⟨by ring, trivial⟩

/-- Inner particle loop of GFlow::repulsePositions for one REPL axis d: walk
the particle indices, rewriting f[n][d] and accumulating boundaryForce and
boundaryEnergy; positions and velocities are only read. -/
def repulseLoopN (kr kd bn bx : ℚ) (d : ℕ) (x v : List (List ℚ)) :
    List ℕ → List (List ℚ) → ℚ → ℚ → List (List ℚ) × ℚ × ℚ
  | [], f, bF, bE => (f, bF, bE)
  | n :: ns, f, bF, bE =>
    let t := repulseCell kr kd bn bx (getE x n d) (getE v n d) (getE f n d)
    repulseLoopN kr kd bn bx d x v ns (setE f n d t.1) (bF + t.2.1) (bE + t.2.2)

/-- Outer axis loop of GFlow::repulsePositions: for each axis in order, when
its boundary condition is REPL, run the particle loop. -/
def repulseAxes (kr kd : ℚ) (bcs : List BCFlag) (bmin bmax : List ℚ)
    (x v : List (List ℚ)) (size : ℕ) :
    List ℕ → List (List ℚ) × ℚ × ℚ → List (List ℚ) × ℚ × ℚ
  | [], acc => acc
  | d :: ds, acc =>
    repulseAxes kr kd bcs bmin bmax x v size ds
      (if bcs.getD d BCFlag.OPEN = BCFlag.REPL
        then repulseLoopN kr kd (bmin.getD d 0) (bmax.getD d 0) d x v
          (List.range size) acc.1 acc.2.1 acc.2.2
        else acc)

/-- Helper: the particle loop of one axis preserves outer and row lengths. -/
theorem repulseLoopN_length (kr kd bn bx : ℚ) (d : ℕ) (x v : List (List ℚ)) :
    ∀ (ns : List ℕ) (f : List (List ℚ)) (bF bE : ℚ),
      (repulseLoopN kr kd bn bx d x v ns f bF bE).1.length = f.length
      ∧ ∀ m, ((repulseLoopN kr kd bn bx d x v ns f bF bE).1.getD m []).length
          = (f.getD m []).length := by
  intro ns
  induction ns with
  | nil => exact fun f bF bE => ⟨rfl, fun m => rfl⟩
  | cons n ns ih =>
    intro f bF bE
    obtain ⟨ihl, ihr⟩ := ih
      (setE f n d (repulseCell kr kd bn bx (getE x n d) (getE v n d) (getE f n d)).1)
      (bF + (repulseCell kr kd bn bx (getE x n d) (getE v n d) (getE f n d)).2.1)
      (bE + (repulseCell kr kd bn bx (getE x n d) (getE v n d) (getE f n d)).2.2)
    refine ⟨?_, ?_⟩
    · show (repulseLoopN kr kd bn bx d x v ns _ _ _).1.length = f.length
      rw [ihl, setE_length]
    · intro m
      show ((repulseLoopN kr kd bn bx d x v ns _ _ _).1.getD m []).length = _
      rw [ihr m, setE_row_length]

/-- Helper: full characterization of the particle loop of one REPL axis.  The
final energy and boundary-force accumulators gain one claim-shaped term per
visited particle, the visited entries of column d gain the claim-shaped signed
increment, and every other entry is untouched. -/
theorem repulseLoopN_spec (kr kd bn bx : ℚ) (d : ℕ) (x v : List (List ℚ)) :
    ∀ (ns : List ℕ), ns.Nodup →
    ∀ (f : List (List ℚ)) (bF bE : ℚ),
      (∀ n ∈ ns, n < f.length ∧ d < (f.getD n []).length) →
      (repulseLoopN kr kd bn bx d x v ns f bF bE).2.2
          = bE + (ns.map (fun n => bEnergyTerm kr bn bx (getE x n d))).sum
      ∧ (repulseLoopN kr kd bn bx d x v ns f bF bE).2.1
          = bF + (ns.map (fun n => bForceTerm kr kd bn bx (getE x n d) (getE v n d))).sum
      ∧ (∀ n ∈ ns, getE (repulseLoopN kr kd bn bx d x v ns f bF bE).1 n d
          = getE f n d + bForceDelta kr kd bn bx (getE x n d) (getE v n d))
      ∧ (∀ m e, ¬(m ∈ ns ∧ e = d) →
          getE (repulseLoopN kr kd bn bx d x v ns f bF bE).1 m e = getE f m e) := by
  intro ns
  induction ns with
  | nil =>
    intro _ f bF bE _
    exact ⟨by simp [repulseLoopN], by simp [repulseLoopN], by simp, fun m e _ => rfl⟩
  | cons n ns ih =>
    intro hnd f bF bE hwf
    obtain ⟨hnin, hnd2⟩ := List.nodup_cons.mp hnd
    obtain ⟨hnf, hdf⟩ := hwf n (List.mem_cons_self n ns)
    have hstep : repulseLoopN kr kd bn bx d x v (n :: ns) f bF bE
        = repulseLoopN kr kd bn bx d x v ns
            (setE f n d (getE f n d + bForceDelta kr kd bn bx (getE x n d) (getE v n d)))
            (bF + bForceTerm kr kd bn bx (getE x n d) (getE v n d))
            (bE + bEnergyTerm kr bn bx (getE x n d)) := by
      simp only [repulseLoopN, repulseCell_eq]
    obtain ⟨ihE, ihF, ihMem, ihOther⟩ := ih hnd2
      (setE f n d (getE f n d + bForceDelta kr kd bn bx (getE x n d) (getE v n d)))
      (bF + bForceTerm kr kd bn bx (getE x n d) (getE v n d))
      (bE + bEnergyTerm kr bn bx (getE x n d))
      (by
        intro m hm
        rw [setE_length, setE_row_length]
        exact hwf m (List.mem_cons_of_mem _ hm))
    refine ⟨?_, ?_, ?_, ?_⟩
    · rw [hstep, ihE, List.map_cons, List.sum_cons]
      ring
    · rw [hstep, ihF, List.map_cons, List.sum_cons]
      ring
    · intro m hm
      rcases List.mem_cons.mp hm with rfl | hm2
      · rw [hstep, ihOther m d (fun hc => hnin hc.1)]
        exact getE_setE_same f m d _ hnf hdf
      · rw [hstep, ihMem m hm2]
        rw [getE_setE_ne f n d _ m d (fun hc => hnin (by rw [← hc.1]; exact hm2))]
    · intro m e hme
      rw [hstep, ihOther m e (fun hc => hme ⟨List.mem_cons_of_mem _ hc.1, hc.2⟩)]
      rw [getE_setE_ne f n d _ m e
        (fun hc => hme ⟨by rw [hc.1]; exact List.mem_cons_self n ns, hc.2⟩)]

/-- Helper: full characterization of the axis loop: the final boundary energy
is the double sum of per-pair energy terms over the REPL axes, and each entry
of the force array in a REPL column below size gains its signed increment. -/
theorem repulseAxes_spec (kr kd : ℚ) (bcs : List BCFlag) (bmin bmax : List ℚ)
    (x v : List (List ℚ)) (size dimR : ℕ) :
    ∀ (ds : List ℕ), ds.Nodup → (∀ d ∈ ds, d < dimR) →
    ∀ (f : List (List ℚ)) (bF bE : ℚ),
      size ≤ f.length → (∀ m, m < f.length → (f.getD m []).length = dimR) →
      (repulseAxes kr kd bcs bmin bmax x v size ds (f, bF, bE)).2.2
          = bE + (ds.map (fun d => if bcs.getD d BCFlag.OPEN = BCFlag.REPL
              then ((List.range size).map (fun n =>
                bEnergyTerm kr (bmin.getD d 0) (bmax.getD d 0) (getE x n d))).sum
              else 0)).sum
      ∧ (∀ n e, getE (repulseAxes kr kd bcs bmin bmax x v size ds (f, bF, bE)).1 n e
          = getE f n e + (if n < size ∧ e ∈ ds ∧ bcs.getD e BCFlag.OPEN = BCFlag.REPL
              then bForceDelta kr kd (bmin.getD e 0) (bmax.getD e 0) (getE x n e) (getE v n e)
              else 0))
      ∧ (repulseAxes kr kd bcs bmin bmax x v size ds (f, bF, bE)).1.length = f.length
      ∧ (∀ m, ((repulseAxes kr kd bcs bmin bmax x v size ds (f, bF, bE)).1.getD m []).length
          = (f.getD m []).length) := by
  intro ds
  induction ds with
  | nil =>
    intro _ _ f bF bE _ _
    exact ⟨by simp [repulseAxes], fun n e => by simp [repulseAxes], rfl, fun m => rfl⟩
  | cons d ds ih =>
    intro hnd hdlt f bF bE hsz hrow
    obtain ⟨hdnin, hnd2⟩ := List.nodup_cons.mp hnd
    by_cases hbc : bcs.getD d BCFlag.OPEN = BCFlag.REPL
    · -- the axis is REPL: one particle loop, then the remaining axes
      have hwfin : ∀ n ∈ List.range size, n < f.length ∧ d < (f.getD n []).length := by
        intro n hn
        have hns : n < size := List.mem_range.mp hn
        have hnf : n < f.length := lt_of_lt_of_le hns hsz
        exact ⟨hnf, by rw [hrow n hnf]; exact hdlt d (List.mem_cons_self d ds)⟩
      obtain ⟨inE, _, inMem, inOther⟩ :=
        repulseLoopN_spec kr kd (bmin.getD d 0) (bmax.getD d 0) d x v
          (List.range size) (List.nodup_range size) f bF bE hwfin
      obtain ⟨lenL, lenR⟩ :=
        repulseLoopN_length kr kd (bmin.getD d 0) (bmax.getD d 0) d x v
          (List.range size) f bF bE
      have hstep : repulseAxes kr kd bcs bmin bmax x v size (d :: ds) (f, bF, bE)
          = repulseAxes kr kd bcs bmin bmax x v size ds
              (repulseLoopN kr kd (bmin.getD d 0) (bmax.getD d 0) d x v
                (List.range size) f bF bE) := by
        simp only [repulseAxes]
        rw [if_pos hbc]
      obtain ⟨ihE, ihPt, ihL, ihR⟩ := ih hnd2 (fun e he => hdlt e (List.mem_cons_of_mem _ he))
        (repulseLoopN kr kd (bmin.getD d 0) (bmax.getD d 0) d x v (List.range size) f bF bE).1
        (repulseLoopN kr kd (bmin.getD d 0) (bmax.getD d 0) d x v (List.range size) f bF bE).2.1
        (repulseLoopN kr kd (bmin.getD d 0) (bmax.getD d 0) d x v (List.range size) f bF bE).2.2
        (by rw [lenL]; exact hsz)
        (by intro m hm; rw [lenR m]; exact hrow m (by rwa [lenL] at hm))
      refine ⟨?_, ?_, ?_, ?_⟩
      · rw [hstep, ihE, inE, List.map_cons, List.sum_cons, if_pos hbc]
        ring
      · intro n e
        have hpt := ihPt n e
        rw [hstep, hpt]
        by_cases hed : e = d
        · subst hed
          have hnotin : ¬(n < size ∧ e ∈ ds ∧ bcs.getD e BCFlag.OPEN = BCFlag.REPL) :=
            fun hc => hdnin hc.2.1
          rw [if_neg hnotin]
          by_cases hn : n < size
          · rw [inMem n (List.mem_range.mpr hn)]
            rw [if_pos ⟨hn, List.mem_cons_self e ds, hbc⟩]
            ring
          · rw [inOther n e (fun hc => hn (List.mem_range.mp hc.1))]
            rw [if_neg (fun hc => hn hc.1)]
        · rw [inOther n e (fun hc => hed hc.2)]
          have hiff : (n < size ∧ e ∈ ds ∧ bcs.getD e BCFlag.OPEN = BCFlag.REPL)
              ↔ (n < size ∧ e ∈ d :: ds ∧ bcs.getD e BCFlag.OPEN = BCFlag.REPL) := by
            constructor
            · exact fun hc => ⟨hc.1, List.mem_cons_of_mem _ hc.2.1, hc.2.2⟩
            · refine fun hc => ⟨hc.1, ?_, hc.2.2⟩
              rcases List.mem_cons.mp hc.2.1 with he | he
              · exact absurd he hed
              · exact he
          by_cases hc2 : n < size ∧ e ∈ ds ∧ bcs.getD e BCFlag.OPEN = BCFlag.REPL
          · rw [if_pos hc2, if_pos (hiff.mp hc2)]
          · rw [if_neg hc2, if_neg (fun hc => hc2 (hiff.mpr hc))]
      · rw [hstep, ihL, lenL]
      · intro m
        rw [hstep, ihR m, lenR m]
    · -- the axis is not REPL: nothing happens on it
      have hstep : repulseAxes kr kd bcs bmin bmax x v size (d :: ds) (f, bF, bE)
          = repulseAxes kr kd bcs bmin bmax x v size ds (f, bF, bE) := by
        simp only [repulseAxes]
        rw [if_neg hbc]
      obtain ⟨ihE, ihPt, ihL, ihR⟩ :=
        ih hnd2 (fun e he => hdlt e (List.mem_cons_of_mem _ he)) f bF bE hsz hrow
      refine ⟨?_, ?_, ?_, ?_⟩
      · rw [hstep, ihE, List.map_cons, List.sum_cons, if_neg hbc]
        ring
      · intro n e
        rw [hstep, ihPt n e]
        by_cases hed : e = d
        · subst hed
          rw [if_neg (fun hc => hbc hc.2.2), if_neg (fun hc => hbc hc.2.2)]
        · have hiff : (e ∈ ds) ↔ (e ∈ d :: ds) := by
            constructor
            · exact fun hc => List.mem_cons_of_mem _ hc
            · intro hc
              rcases List.mem_cons.mp hc with he | he
              · exact absurd he hed
              · exact he
          by_cases hc2 : n < size ∧ e ∈ ds ∧ bcs.getD e BCFlag.OPEN = BCFlag.REPL
          · rw [if_pos hc2, if_pos ⟨hc2.1, hiff.mp hc2.2.1, hc2.2.2⟩]
          · rw [if_neg hc2, if_neg (fun hc => hc2 ⟨hc.1, hiff.mpr hc.2.1, hc.2.2⟩)]
      · rw [hstep, ihL]
      · intro m
        rw [hstep, ihR m]

/-- State GFlow::repulsePositions works on: per-axis boundary flags and
bounds, the repulsion and dissipation constants, the position, velocity and
force fields, the loop bound size (simData->size(), the live count in this
source) and the two boundary accumulators. -/
structure GFState where
  bcs : List BCFlag
  bmin : List ℚ
  bmax : List ℚ
  repulsion : ℚ
  dissipation : ℚ
  x : List (List ℚ)
  v : List (List ℚ)
  f : List (List ℚ)
  size : ℕ
  boundaryForce : ℚ
  boundaryEnergy : ℚ
  deriving DecidableEq

/-- Embeds GFlow::repulsePositions (gflow.cpp 571-599): reset boundaryForce
and boundaryEnergy to zero, then for every axis d below dim with a REPL
boundary run the particle loop that adds the repulse force into f[n][d] and
accumulates the boundary force and energy. -/
def repulsePositions (dim : ℕ) (st : GFState) : GFState :=
  let r := repulseAxes st.repulsion st.dissipation st.bcs st.bmin st.bmax st.x st.v st.size
    (List.range dim) (st.f, 0, 0)
  { st with f := r.1, boundaryForce := r.2.1, boundaryEnergy := r.2.2 }

/-- C7: for every REPL axis d and particle n below size, repulsePositions adds
the inward force k_r (min - x) + k_d clamp(-v) to F[n][d] when x < min, and the
mirrored force with opposite sign when x > max (bForceDelta packages both
cases); and the boundary energy after the call equals the sum over all
particle-axis pairs of the (1/2) k_r overshoot^2 terms, independent of the
accumulator's previous value (it is reset at the start of the call). -/
theorem c7_repulse_forces_energy (dim : ℕ) (st : GFState)
    (hsz : st.size ≤ st.f.length)
    (hrow : ∀ m, m < st.f.length → (st.f.getD m []).length = dim) :
    (∀ n d, n < st.size → d < dim → st.bcs.getD d BCFlag.OPEN = BCFlag.REPL →
      getE (repulsePositions dim st).f n d
        = getE st.f n d
          + bForceDelta st.repulsion st.dissipation (st.bmin.getD d 0) (st.bmax.getD d 0)
              (getE st.x n d) (getE st.v n d))
    ∧ (repulsePositions dim st).boundaryEnergy
        = ((List.range dim).map (fun d =>
            if st.bcs.getD d BCFlag.OPEN = BCFlag.REPL then
              ((List.range st.size).map (fun n =>
                bEnergyTerm st.repulsion (st.bmin.getD d 0) (st.bmax.getD d 0)
                  (getE st.x n d))).sum
            else 0)).sum := by
  obtain ⟨hE, hpt, _, _⟩ :=
    repulseAxes_spec st.repulsion st.dissipation st.bcs st.bmin st.bmax st.x st.v st.size dim
      (List.range dim) (List.nodup_range dim) (fun d hd => List.mem_range.mp hd)
      st.f 0 0 hsz hrow
  constructor
  · intro n d hn hd hbc
    have hh := hpt n d
    rw [if_pos ⟨hn, List.mem_range.mpr hd, hbc⟩] at hh
    exact hh
  · show (repulseAxes st.repulsion st.dissipation st.bcs st.bmin st.bmax st.x st.v st.size
        (List.range dim) (st.f, 0, 0)).2.2 = _
    rw [hE, zero_add]

/-- One-particle state with a left REPL wall at 0, spring 1000, the particle
at -0.01 moving further left, and stale nonzero boundary accumulators. -/
def c7_state : GFState :=
  ⟨[BCFlag.REPL], [0], [1], 1000, 0, [[-1 / 100]], [[-2]], [[0]], 1, 7, 9⟩

/-- Witness for C7: instantiating the force and energy characterization at the
one-particle state. -/
theorem c7_repulse_forces_energy_witness :
    getE (repulsePositions 1 c7_state).f 0 0
      = getE c7_state.f 0 0
        + bForceDelta c7_state.repulsion c7_state.dissipation (c7_state.bmin.getD 0 0)
            (c7_state.bmax.getD 0 0) (getE c7_state.x 0 0) (getE c7_state.v 0 0)
    ∧ (repulsePositions 1 c7_state).boundaryEnergy
        = ((List.range 1).map (fun d =>
            if c7_state.bcs.getD d BCFlag.OPEN = BCFlag.REPL then
              ((List.range c7_state.size).map (fun n =>
                bEnergyTerm c7_state.repulsion (c7_state.bmin.getD d 0) (c7_state.bmax.getD d 0)
                  (getE c7_state.x n d))).sum
            else 0)).sum := by
  have hh := c7_repulse_forces_energy 1 c7_state (by decide)
    (by
      intro m hm
      have hm0 : m = 0 := by
        have : c7_state.f.length = 1 := by decide
        omega
      subst hm0
      decide)
  exact ⟨hh.1 0 0 (by decide) (by decide) (by decide), hh.2⟩

end GFlow

end GFlowSim
